import Mathlib

/-!
Verification development for the `wtm` worktree-config synchronizer.

The Go sources are shallowly embedded: pure functions become Lean
functions, the filesystem and the interactive prompt become explicit
state (`FS`, `ExecState`), and external effects (git subprocesses, the
directory walk, the YAML parser, the home directory) become parameters
of the embedded pipeline.  Paths are Unix slash-separated strings, as on
the platform the tool targets; `filepath.ToSlash` is the identity there
and is therefore elided.
-/

namespace Wtm

/-! ## String primitives

Structurally recursive counterparts of the Go `strings`/`strconv`
helpers the sources use, working on the character list of a string. -/

/-- Split a character list at every occurrence of `sep`. -/
def splitCharList (sep : Char) : List Char → List (List Char)
  | [] => [[]]
  | c :: cs =>
    if c = sep then [] :: splitCharList sep cs
    else
      match splitCharList sep cs with
      | [] => [[c]]
      | g :: gs => (c :: g) :: gs

/-- Model of Go `strings.Split` for a one-character separator. -/
def splitOnChar (sep : Char) (s : String) : List String :=
  (splitCharList sep s.data).map String.mk

/-- Model of Go `strings.HasPrefix`. -/
def strStartsWith (s pat : String) : Bool := pat.data.isPrefixOf s.data

/-- Drop the first `n` characters. -/
def strDrop (s : String) (n : Nat) : String := String.mk (s.data.drop n)

/-- Trim characters satisfying `p` from both ends. -/
def trimPred (p : Char → Bool) (s : String) : String :=
  String.mk (((s.data.dropWhile p).reverse.dropWhile p).reverse)

/-- Model of Go `strings.TrimSpace`. -/
def strTrim (s : String) : String := trimPred Char.isWhitespace s

/-- Lexicographic character-list comparison; agrees with Go's byte-wise
string comparison on UTF-8 data. -/
def charListLt : List Char → List Char → Bool
  | [], [] => false
  | [], _ :: _ => true
  | _ :: _, [] => false
  | a :: as, b :: bs => if a < b then true else if b < a then false else charListLt as bs

def strLt (a b : String) : Bool := charListLt a.data b.data

def digitsToNat (ds : List Char) : Option Nat :=
  ds.foldl
    (fun acc c =>
      match acc with
      | none => none
      | some n => if c.isDigit then some (n * 10 + (c.toNat - '0'.toNat)) else none)
    (some 0)

/-- Model of Go `strconv.Atoi`: optional sign followed by at least one
decimal digit. -/
def strToInt? (s : String) : Option Int :=
  match s.data with
  | [] => none
  | '-' :: rest =>
    if rest.isEmpty then none else (digitsToNat rest).map (fun n => -(n : Int))
  | '+' :: rest =>
    if rest.isEmpty then none else (digitsToNat rest).map (fun n => (n : Int))
  | ds => (digitsToNat ds).map (fun n => (n : Int))

/-- Model of Go `strings.ToLower` on the ASCII range (the only one the
program compares against). -/
def strToLower (s : String) : String :=
  String.mk (s.data.map fun c =>
    if 'A' ≤ c && c ≤ 'Z' then Char.ofNat (c.toNat + 32) else c)

/-! ## Path utilities (model of Go `path/filepath` on Unix) -/

/-- Stack step of `filepath.Clean`: processes one component against the
already-accepted components (held in reverse). -/
def cleanStack (isAbs : Bool) : List String → List String → List String
  | st, [] => st.reverse
  | st, c :: cs =>
    if c = ".." then
      match st with
      | t :: rest => if t = ".." then cleanStack isAbs (c :: st) cs else cleanStack isAbs rest cs
      | [] => if isAbs then cleanStack isAbs [] cs else cleanStack isAbs [c] cs
    else cleanStack isAbs (c :: st) cs

/-- Model of Go `filepath.Clean` for slash-separated paths. -/
def cleanPath (p : String) : String :=
  if p = "" then "."
  else
    let isAbs := strStartsWith p "/"
    let comps := (splitOnChar '/' p).filter (fun c => c ≠ "" && c ≠ ".")
    let st := cleanStack isAbs [] comps
    if isAbs then "/" ++ String.intercalate "/" st
    else if st.isEmpty then "." else String.intercalate "/" st

/-- Model of `samePath` (sync.go): equality after `filepath.Clean`. -/
def samePath (a b : String) : Bool := cleanPath a = cleanPath b

/-- Model of Go `filepath.Join`: joins the non-empty elements and cleans. -/
def joinPath (parts : List String) : String :=
  let ne := parts.filter (fun s => s ≠ "")
  if ne.isEmpty then "" else cleanPath (String.intercalate "/" ne)

/-- Model of Go `filepath.Base`. -/
def goBase (p : String) : String :=
  if p = "" then "."
  else
    let cs := (splitOnChar '/' p).filter (fun s => s ≠ "")
    match cs.getLast? with
    | some c => c
    | none => "/"

/-- Drop the longest common leading run of two component lists. -/
def dropCommon : List String → List String → List String × List String
  | a :: as, b :: bs => if a = b then dropCommon as bs else (a :: as, b :: bs)
  | as, bs => (as, bs)

/-- Components of a cleaned path (no empty and no "." entries remain). -/
def cleanComps (p : String) : List String :=
  if p = "." then [] else (splitOnChar '/' p).filter (fun s => s ≠ "")

/-- Model of Go `filepath.Rel` for slash-separated paths: lexical
relative path from `base` to `targ`, failing when exactly one side is
rooted or when the shared-prefix computation would have to traverse an
unknown `..` component of the base. -/
def goRel (base targ : String) : Except Unit String :=
  let b := cleanPath base
  let t := cleanPath targ
  if b = t then .ok "."
  else if strStartsWith b "/" ≠ strStartsWith t "/" then .error ()
  else
    let (br, tr) := dropCommon (cleanComps b) (cleanComps t)
    if br.head? = some ".." then .error ()
    else .ok (String.intercalate "/" (List.replicate br.length ".." ++ tr))

/-- Model of Go `filepath.Dir` on cleaned paths (as produced by `joinPath`):
everything but the last component. -/
def dirPath (p : String) : String :=
  let c := cleanPath p
  let isAbs := strStartsWith c "/"
  let cs := (cleanComps c).dropLast
  if isAbs then "/" ++ String.intercalate "/" cs
  else if cs.isEmpty then "." else String.intercalate "/" cs

/-! ## Glob matching

Modelled from the spec: the glob matcher is an external library
(`doublestar`) in the source; §4.3 and §9 of the spec fix its contract:
shell-style recursive glob semantics where `**` as a complete path
segment matches across directory separators (zero or more segments),
`*` matches within a segment, `?` matches a single non-separator
character, `[...]` is a character class with optional `^`/`!` negation
and ranges, `\` escapes the next character, and a malformed pattern
(unclosed class, trailing escape) is reported as a matching error. -/

inductive ClassItem where
  | single : Char → ClassItem
  | range : Char → Char → ClassItem
deriving Repr, DecidableEq

inductive GlobTok where
  | lit : Char → GlobTok
  | anyChar : GlobTok
  | star : GlobTok
  | cls : Bool → List ClassItem → GlobTok
deriving Repr, DecidableEq

/-- Read one class atom (a literal or escaped character, not `]`). -/
def readClassChar : List Char → Option (Char × List Char)
  | [] => none
  | ']' :: _ => none
  | '\\' :: [] => none
  | '\\' :: c :: rest => some (c, rest)
  | c :: rest => some (c, rest)

/-- Parse the items of a character class up to the closing `]`.
Fuel-driven recursion; the fuel is the input length, which each step
strictly consumes, so it never runs out on the inputs used. -/
def parseClassItems : Nat → List Char → Option (List ClassItem × List Char)
  | 0, _ => none
  | _ + 1, ']' :: rest => some ([], rest)
  | fuel + 1, cs =>
    match readClassChar cs with
    | none => none
    | some (c, cs1) =>
      match cs1 with
      | '-' :: cs2 =>
        match readClassChar cs2 with
        | some (d, cs3) =>
          match parseClassItems fuel cs3 with
          | some (items, rest) => some (.range c d :: items, rest)
          | none => none
        | none =>
          match parseClassItems fuel cs1 with
          | some (items, rest) => some (.single c :: items, rest)
          | none => none
      | _ =>
        match parseClassItems fuel cs1 with
        | some (items, rest) => some (.single c :: items, rest)
        | none => none

/-- Parse a character class body (after `[`): optional negation marker,
then at least one item. -/
def parseClass (cs : List Char) : Option (Bool × List ClassItem × List Char) :=
  let (neg, cs1) :=
    match cs with
    | '^' :: rest => (true, rest)
    | '!' :: rest => (true, rest)
    | _ => (false, cs)
  match cs1 with
  | ']' :: _ => none
  | _ =>
    match parseClassItems cs1.length cs1 with
    | some (items, rest) => some (neg, items, rest)
    | none => none

/-- Tokenize a single within-segment glob pattern; `none` on a malformed
pattern. Fuel-driven; the fuel is the input length. -/
def parseSegToks : Nat → List Char → Option (List GlobTok)
  | _, [] => some []
  | 0, _ :: _ => none
  | fuel + 1, c :: cs =>
    if c = '\\' then
      match cs with
      | [] => none
      | d :: ds => (parseSegToks fuel ds).map (fun ts => .lit d :: ts)
    else if c = '?' then (parseSegToks fuel cs).map (fun ts => .anyChar :: ts)
    else if c = '*' then (parseSegToks fuel cs).map (fun ts => .star :: ts)
    else if c = '[' then
      match parseClass cs with
      | none => none
      | some (neg, items, rest) => (parseSegToks fuel rest).map (fun ts => .cls neg items :: ts)
    else (parseSegToks fuel cs).map (fun ts => .lit c :: ts)

def classItemMatch (n : Char) : ClassItem → Bool
  | .single c => n = c
  | .range lo hi => lo ≤ n ∧ n ≤ hi

def classMatch (items : List ClassItem) (n : Char) : Bool :=
  items.any (classItemMatch n)

/-- Match a tokenized segment pattern against the characters of one path
segment.  Fuel-driven recursion: every step decreases the combined
length of pattern and input by at least one while consuming one unit of
fuel, so fuel `|pattern| + |input| + 1` never runs out. -/
def tokMatch : Nat → List GlobTok → List Char → Bool
  | 0, _, _ => false
  | _ + 1, [], [] => true
  | _ + 1, [], _ :: _ => false
  | fuel + 1, .star :: ps, ns =>
    tokMatch fuel ps ns ||
      (match ns with
       | [] => false
       | _ :: ns2 => tokMatch fuel (.star :: ps) ns2)
  | fuel + 1, .lit c :: ps, n :: ns => n = c && tokMatch fuel ps ns
  | fuel + 1, .anyChar :: ps, _ :: ns => tokMatch fuel ps ns
  | fuel + 1, .cls neg items :: ps, n :: ns => (classMatch items n ≠ neg) && tokMatch fuel ps ns
  | _ + 1, _ :: _, [] => false

/-- A parsed pattern segment: either a full-segment doublestar or an
ordinary token list. -/
inductive PatSeg where
  | dstar : PatSeg
  | seg : List GlobTok → PatSeg
deriving Repr, DecidableEq

def parsePattern (p : String) : Option (List PatSeg) :=
  (splitOnChar '/' p).mapM fun s =>
    if s = "**" then some .dstar
    else (parseSegToks s.length s.data).map .seg

/-- Match parsed pattern segments against name segments; a full-segment
doublestar absorbs zero or more name segments.  Fuel-driven as in
`tokMatch`. -/
def matchSegs : Nat → List PatSeg → List (List Char) → Bool
  | 0, _, _ => false
  | _ + 1, [], [] => true
  | _ + 1, [], _ :: _ => false
  | fuel + 1, .dstar :: ps, ns =>
    matchSegs fuel ps ns ||
      (match ns with
       | [] => false
       | _ :: ns2 => matchSegs fuel (.dstar :: ps) ns2)
  | fuel + 1, .seg t :: ps, n :: ns =>
    tokMatch (t.length + n.length + 1) t n && matchSegs fuel ps ns
  | _ + 1, .seg _ :: _, [] => false

/-- Model of `doublestar.Match pattern name`: `.error` on a malformed
pattern, otherwise whether the whole slash-separated name matches. -/
def dsMatch (pattern name : String) : Except Unit Bool :=
  match parsePattern pattern with
  | none => .error ()
  | some ps =>
    let ns := (splitOnChar '/' name).map String.data
    .ok (matchSegs (ps.length + ns.length + 1) ps ns)

/-! ## Config (internal/config/config.go) -/

structure Config where
  «include» : List String
  exclude : List String
deriving Repr, DecidableEq

/-- `config.Default` -/
def Config.Default : Config :=
  { «include» := [".env", ".env.*", "**/.env", "**/.env.*"]
  , exclude := ["**/*.example*", "**/node_modules/**", "**/.git/**"] }

structure Loaded where
  config : Config
  source : String
deriving Repr, DecidableEq

/-- Outcome of reading and YAML-decoding the config file; the read and
the YAML parser are external to the repository. -/
inductive ReadResult where
  | notExist : ReadResult
  | readErr : ReadResult
  | content : Except Unit Config → ReadResult

/-- `config.Load`, with the file read/parse outcome supplied. -/
def load (repoRoot : String) (file : ReadResult) : Except String Loaded :=
  let path := joinPath [repoRoot, ".worktree-manager.yml"]
  match file with
  | .notExist => .ok { config := Config.Default, source := "defaults" }
  | .readErr => .error ("failed to read config " ++ path)
  | .content (.error _) => .error ("failed to parse " ++ path)
  | .content (.ok c) =>
    let c := if c.«include».isEmpty then { c with «include» := Config.Default.«include» } else c
    let c := if c.exclude.isEmpty then { c with exclude := Config.Default.exclude } else c
    .ok { config := c, source := path }

/-! ## Worktree porcelain parsing (internal/gitx) -/

structure Worktree where
  path : String
  branch : String
  head : String
deriving Repr, DecidableEq

/-- One line of the porcelain parser's loop body, acting on the state
`(completed records, current record)`; the line is trimmed first and
empty lines are skipped. -/
def porcelainCore (st : List Worktree × Option Worktree) (line : String) :
    List Worktree × Option Worktree :=
  if strStartsWith line "worktree " then
    (st.1 ++ (match st.2 with | some w => [w] | none => []),
     some { path := strTrim (strDrop line 9), branch := "", head := "" })
  else if strStartsWith line "branch " then
    match st.2 with
    | some w => (st.1, some { w with branch := strTrim (strDrop line 7) })
    | none => st
  else if strStartsWith line "HEAD " then
    match st.2 with
    | some w => (st.1, some { w with head := strTrim (strDrop line 5) })
    | none => st
  else st

def porcelainStep (st : List Worktree × Option Worktree) (line : String) :
    List Worktree × Option Worktree :=
  let line := strTrim line
  if line = "" then st else porcelainCore st line

/-- Flush the in-progress record, as the parser does after its loop. -/
def porcelainOut (st : List Worktree × Option Worktree) : List Worktree :=
  st.1 ++ (match st.2 with | some w => [w] | none => [])

/-- `gitx.parseWorktreePorcelain` -/
def parseWorktreePorcelain (s : String) : Except String (List Worktree) :=
  let out := porcelainOut ((splitOnChar '
' s).foldl porcelainStep ([], none))
  if out.isEmpty then .error "no worktrees found" else .ok out

/-! Spec-side reformulation of the porcelain parser, used to state C2:
the cleaned input lines are grouped into blocks, one per `worktree`
line, and each block yields one record whose `branch`/`HEAD` fields come
from the info lines of that block. -/

def porcelainLines (s : String) : List String :=
  ((splitOnChar '
' s).map strTrim).filter (fun l => l ≠ "")

def isWorktreeLine (l : String) : Bool := strStartsWith l "worktree "

/-- Group cleaned lines into blocks, each headed by a `worktree` line
and carrying the following non-`worktree` lines. -/
def specBlocks : List String → List (String × List String)
  | [] => []
  | l :: ls =>
    if isWorktreeLine l then
      (l, ls.takeWhile (fun x => !isWorktreeLine x)) ::
        specBlocks (ls.dropWhile (fun x => !isWorktreeLine x))
    else specBlocks ls
termination_by ls => ls.length
decreasing_by
  all_goals simp only [List.length_cons]
  · have h : ∀ (l : List String), (l.dropWhile (fun x => !isWorktreeLine x)).length ≤ l.length := by
      intro l
      induction l with
      | nil => simp
      | cons a as ih =>
        by_cases ha : isWorktreeLine a
        · simp [List.dropWhile, ha]
        · simp [List.dropWhile, ha]
          omega
    exact Nat.lt_succ_of_le (h ls)
  · omega

/-- Attach one info line to a record: `branch`/`HEAD` lines set the
corresponding field, every other line is ignored. -/
def applyInfoLine (w : Worktree) (l : String) : Worktree :=
  if strStartsWith l "branch " then { w with branch := strTrim (strDrop l 7) }
  else if strStartsWith l "HEAD " then { w with head := strTrim (strDrop l 5) }
  else w

def specRecord (b : String × List String) : Worktree :=
  b.2.foldl applyInfoLine { path := strTrim (strDrop b.1 9), branch := "", head := "" }

/-- Spec-side parser: one record per `worktree` line, in input order;
an input with no `worktree` line is an error. -/
def parseWorktreesSpec (s : String) : Except String (List Worktree) :=
  let bs := specBlocks (porcelainLines s)
  if bs.isEmpty then .error "no worktrees found" else .ok (bs.map specRecord)

/-! ## Store path derivation (sync.go) -/

/-- `splitPathComponents` -/
def splitPathComponents (path : String) : List String :=
  if path = "" then []
  else (splitOnChar '/' path).filter (fun seg => seg ≠ "" && seg ≠ ".")

/-- Trim the characters of `cs` from both ends (model of Go
`strings.Trim`). -/
def trimCharSet (cs : List Char) (s : String) : String :=
  String.mk (((s.data.dropWhile (cs.contains ·)).reverse.dropWhile (cs.contains ·)).reverse)

/-- `sanitizeName`: path separators, spaces, colons and tabs become
underscores, then leading/trailing underscores and spaces are trimmed. -/
def sanitizeName (s : String) : String :=
  trimCharSet ['_', ' ']
    (String.mk (s.data.map fun r =>
      if r = '/' || r = '\\' || r = ' ' || r = ':' || r = '\t' then '_' else r))

/-- `sanitizeSegments` -/
def sanitizeSegments (parts : List String) : List String :=
  parts.foldr
    (fun part acc =>
      let part := strTrim part
      if part = "" then acc
      else
        let s := sanitizeName part
        if s = "" then acc else s :: acc)
    []

/-- `worktreePathSegments` -/
def worktreePathSegments (repoRoot : String) (wt : Worktree) : List String :=
  match goRel repoRoot wt.path with
  | .ok rel =>
    if rel ≠ "" && rel ≠ "." then sanitizeSegments (splitOnChar '/' rel)
    else sanitizeSegments (splitPathComponents wt.path)
  | .error _ => sanitizeSegments (splitPathComponents wt.path)

/-- `storeRootPath`; the home directory (an external lookup) is passed
in. -/
def storeRootPath (home repoRoot : String) (wt : Worktree) : String :=
  let repoSlug := sanitizeName (goBase repoRoot)
  let repoSlug := if repoSlug = "" then "repo" else repoSlug
  let segments := worktreePathSegments repoRoot wt
  let segments := if segments.isEmpty then ["worktree"] else segments
  joinPath ([home, ".wtm", "configs", repoSlug] ++ segments)

/-- Modelled from the spec (§4.7): worktree segments are the components
of the worktree's path relative to the repository root when it is a
sub-path of the root, and otherwise the components of the worktree's own
absolute path, each sanitized. Stated for comparison with the
code-derived `storeRootPath`. -/
def storeRootPathSpec (home repoRoot : String) (wt : Worktree) : String :=
  let repoSlug := sanitizeName (goBase repoRoot)
  let repoSlug := if repoSlug = "" then "repo" else repoSlug
  let segments :=
    match goRel repoRoot wt.path with
    | .ok rel =>
      if rel ≠ "" && rel ≠ "." && (splitOnChar '/' rel).head? ≠ some ".." then
        sanitizeSegments (splitOnChar '/' rel)
      else sanitizeSegments (splitPathComponents wt.path)
    | .error _ => sanitizeSegments (splitPathComponents wt.path)
  let segments := if segments.isEmpty then ["worktree"] else segments
  joinPath ([home, ".wtm", "configs", repoSlug] ++ segments)

/-! ## Plan building (sync.go) -/

structure PlanItem where
  rel : String
  repoAbs : String
  storeAbs : String
  worktreeAbs : String
deriving Repr, DecidableEq

/-- `normalizePatterns` (`ToSlash` is the identity on slash paths). -/
def normalizePatterns (pats : List String) : List String :=
  (pats.map strTrim).filter (fun p => p ≠ "")

/-- `matchesAny`: a pattern whose match reports an error counts as a
non-match. -/
def matchesAny (patterns : List String) (rel : String) : Bool :=
  patterns.any fun p =>
    match dsMatch p rel with
    | .ok true => true
    | _ => false

/-- The walk-loop body of `buildSyncPlan` for one visited regular file,
identified by its path `relOS` relative to the repo root (so the visited
absolute path is `Join(repoRoot, relOS)`). -/
def planEntry (repoRoot worktreeRoot storeRoot : String) (inc exc : List String)
    (relOS : String) : Option PlanItem :=
  let path := joinPath [repoRoot, relOS]
  let rel := relOS
  if !matchesAny inc rel || matchesAny exc rel then none
  else
    let dest := joinPath [worktreeRoot, relOS]
    if samePath path dest then none
    else some { rel := rel, repoAbs := path, storeAbs := joinPath [storeRoot, relOS],
                worktreeAbs := dest }

/-- Insertion step of `sortPlan`'s insertion sort. -/
def insertPlanItem (x : PlanItem) : List PlanItem → List PlanItem
  | [] => [x]
  | y :: ys => if strLt x.rel y.rel then x :: y :: ys else y :: insertPlanItem x ys

/-- `sortPlan`: in-place insertion sort by relative path, modelled
functionally. -/
def sortPlan (items : List PlanItem) : List PlanItem :=
  items.foldl (fun acc x => insertPlanItem x acc) []

/-- `buildSyncPlan`; the directory walk is external, so the visited
regular files are supplied as their repo-relative paths in walk order
(directories named `.git` or `node_modules` are never descended into by
the walk). -/
def buildSyncPlan (repoRoot worktreeRoot storeRoot : String) (cfg : Config)
    (walked : List String) : List PlanItem :=
  let r := cleanPath repoRoot
  let w := cleanPath worktreeRoot
  let s := cleanPath storeRoot
  sortPlan (walked.filterMap
    (planEntry r w s (normalizePatterns cfg.«include») (normalizePatterns cfg.exclude)))

/-- The walk-loop body of `buildPushPlan` for one visited store file. -/
def pushEntry (storeRoot repoRoot : String) (inc exc : List String)
    (relOS : String) : Option PlanItem :=
  let path := joinPath [storeRoot, relOS]
  if !matchesAny inc relOS || matchesAny exc relOS then none
  else some { rel := relOS, repoAbs := joinPath [repoRoot, relOS], storeAbs := path,
              worktreeAbs := "" }

/-- `buildPushPlan`, walking the store root. -/
def buildPushPlan (storeRoot repoRoot : String) (cfg : Config)
    (walked : List String) : List PlanItem :=
  let r := cleanPath repoRoot
  let s := cleanPath storeRoot
  sortPlan (walked.filterMap
    (pushEntry s r (normalizePatterns cfg.«include») (normalizePatterns cfg.exclude)))

/-! ## Filesystem and executor model (sync.go)

The OS filesystem is modelled as a flat map from cleaned paths to
entries; permission bits and timestamps, which the copy preserves on a
best-effort basis, are elided.  The interactive standard input is a
list of pending reply lines. -/

inductive FsEntry where
  | file : String → FsEntry
  | dir : FsEntry
  | symlink : String → FsEntry
deriving Repr, DecidableEq

structure FS where
  entries : List (String × FsEntry)
deriving Repr, DecidableEq

def FS.lookup (fs : FS) (p : String) : Option FsEntry :=
  (fs.entries.find? (fun e => e.1 = cleanPath p)).map (fun e => e.2)

def FS.set (fs : FS) (p : String) (v : FsEntry) : FS :=
  ⟨(cleanPath p, v) :: fs.entries.filter (fun e => e.1 ≠ cleanPath p)⟩

def FS.erase (fs : FS) (p : String) : FS :=
  ⟨fs.entries.filter (fun e => e.1 ≠ cleanPath p)⟩

/-- Ancestor paths of `p` from the top down to `p` itself. -/
def pathAncestors (p : String) : List String :=
  let c := cleanPath p
  let isAbs := strStartsWith c "/"
  let comps := cleanComps c
  (List.range comps.length).map fun i =>
    let cs := comps.take (i + 1)
    if isAbs then "/" ++ String.intercalate "/" cs else String.intercalate "/" cs

/-- Model of `os.MkdirAll`: an existing directory is an immediate
success, an existing non-directory an error; otherwise every missing
ancestor is created in top-down order. -/
def FS.mkdirAll (fs : FS) (p : String) : Except String FS :=
  match fs.lookup p with
  | some .dir => .ok fs
  | some _ => .error ("mkdir " ++ p)
  | none =>
    (pathAncestors p).foldl
      (fun acc q =>
        match acc with
        | .error e => .error e
        | .ok f =>
          match f.lookup q with
          | some .dir => .ok f
          | some _ => .error ("mkdir " ++ q)
          | none => .ok (f.set q .dir))
      (.ok fs)

structure ExecState where
  fs : FS
  stdin : List String
deriving Repr, DecidableEq

/-- `prompt`: read one reply line (end of input yields the empty
string, as Go's ignored `ReadString` error does). -/
def promptLine (stdin : List String) : String × List String :=
  match stdin with
  | [] => ("", [])
  | a :: rest => (a, rest)

/-- `confirm` -/
def confirmAnswer (stdin : List String) : Bool × List String :=
  let (s, rest) := promptLine stdin
  let s := strToLower (strTrim s)
  (s = "y" || s = "yes", rest)

inductive OpResult where
  | ok : OpResult
  | skipped : String → OpResult
  | failed : String → OpResult
deriving Repr, DecidableEq

/-- `handleExisting`: if the destination exists, confirm (unless
forced) and remove it; declining yields a skip. -/
def handleExisting (st : ExecState) (path : String) (force : Bool) :
    ExecState × OpResult :=
  match st.fs.lookup path with
  | some _ =>
    if force then ({ st with fs := st.fs.erase path }, .ok)
    else
      let (ans, rest) := confirmAnswer st.stdin
      if ans then ({ fs := st.fs.erase path, stdin := rest }, .ok)
      else ({ st with stdin := rest }, .skipped path)
  | none => (st, .ok)

/-- `copyFileContents` (content only; mode/mtime preservation elided). -/
def copyFileContents (fs : FS) (src dst : String) : Except String FS :=
  match fs.lookup src with
  | some (.file c) =>
    match fs.lookup dst with
    | some .dir => .error ("create " ++ dst)
    | _ => .ok (fs.set dst (.file c))
  | _ => .error ("stat " ++ src)

/-- `copyRepoToStore` -/
def copyRepoToStore (st : ExecState) (src dst : String) :
    ExecState × Except String Unit :=
  match st.fs.mkdirAll (dirPath dst) with
  | .error m => (st, .error m)
  | .ok fs1 =>
    match copyFileContents fs1 src dst with
    | .error m => ({ st with fs := fs1 }, .error m)
    | .ok fs2 => ({ st with fs := fs2 }, .ok ())

/-- `copyStoreToRepo` -/
def copyStoreToRepo (st : ExecState) (src dst : String) (force : Bool) :
    ExecState × OpResult :=
  match st.fs.mkdirAll (dirPath dst) with
  | .error m => (st, .failed m)
  | .ok fs1 =>
    let st1 := { st with fs := fs1 }
    match handleExisting st1 dst force with
    | (st2, .ok) =>
      match copyFileContents st2.fs src dst with
      | .error m => (st2, .failed m)
      | .ok fs2 => ({ st2 with fs := fs2 }, .ok)
    | (st2, r) => (st2, r)

/-- `ensureWorktreeLink`: an existing symlink that already points at the
exact target is a no-op success; any other existing entry goes through
the overwrite policy before the symlink is created. -/
def ensureWorktreeLink (st : ExecState) (target link : String) (force : Bool) :
    ExecState × OpResult :=
  match st.fs.mkdirAll (dirPath link) with
  | .error m => (st, .failed m)
  | .ok fs1 =>
    let st1 := { st with fs := fs1 }
    let mkLink := fun (st2 : ExecState) =>
      match st2.fs.lookup link with
      | some _ => (st2, OpResult.failed ("symlink " ++ link))
      | none => ({ st2 with fs := st2.fs.set link (.symlink target) }, OpResult.ok)
    match st1.fs.lookup link with
    | some (.symlink cur) =>
      if cur = target then (st1, .ok)
      else
        match handleExisting st1 link force with
        | (st2, .ok) => mkLink st2
        | (st2, r) => (st2, r)
    | some _ =>
      match handleExisting st1 link force with
      | (st2, .ok) => mkLink st2
      | (st2, r) => (st2, r)
    | none => mkLink st1

structure SyncTally where
  copied : Nat
  linked : Nat
  skippedCount : Nat
deriving Repr, DecidableEq

def SyncTally.add (a b : SyncTally) : SyncTally :=
  ⟨a.copied + b.copied, a.linked + b.linked, a.skippedCount + b.skippedCount⟩

/-- One iteration of the `Run` execution loop. -/
def syncStep (force : Bool) (acc : ExecState × SyncTally) (it : PlanItem) :
    ExecState × SyncTally :=
  match copyRepoToStore acc.1 it.repoAbs it.storeAbs with
  | (st1, .error _) => (st1, { acc.2 with skippedCount := acc.2.skippedCount + 1 })
  | (st1, .ok _) =>
    match ensureWorktreeLink st1 it.storeAbs it.worktreeAbs force with
    | (st2, .ok) =>
      (st2, { acc.2 with copied := acc.2.copied + 1, linked := acc.2.linked + 1 })
    | (st2, .skipped _) =>
      (st2, { acc.2 with copied := acc.2.copied + 1, skippedCount := acc.2.skippedCount + 1 })
    | (st2, .failed _) =>
      (st2, { acc.2 with copied := acc.2.copied + 1, skippedCount := acc.2.skippedCount + 1 })

/-- The `Run` execution loop over the whole plan. -/
def syncExec (st : ExecState) (force : Bool) (plan : List PlanItem) :
    ExecState × SyncTally :=
  plan.foldl (syncStep force) (st, ⟨0, 0, 0⟩)

structure PushTally where
  pushed : Nat
  skippedCount : Nat
deriving Repr, DecidableEq

def PushTally.add (a b : PushTally) : PushTally :=
  ⟨a.pushed + b.pushed, a.skippedCount + b.skippedCount⟩

/-- One iteration of the `Push` execution loop. -/
def pushStep (force : Bool) (acc : ExecState × PushTally) (it : PlanItem) :
    ExecState × PushTally :=
  match copyStoreToRepo acc.1 it.storeAbs it.repoAbs force with
  | (st1, .ok) => (st1, { acc.2 with pushed := acc.2.pushed + 1 })
  | (st1, .skipped _) => (st1, { acc.2 with skippedCount := acc.2.skippedCount + 1 })
  | (st1, .failed _) => (st1, { acc.2 with skippedCount := acc.2.skippedCount + 1 })

/-- The `Push` execution loop over the whole plan. -/
def pushExec (st : ExecState) (force : Bool) (plan : List PlanItem) :
    ExecState × PushTally :=
  plan.foldl (pushStep force) (st, ⟨0, 0⟩)

/-! ## CLI pipeline (cmd/wtm/main.go and sync.go) -/

structure SyncOptions where
  repoHint : String
  worktreeNum : Int
  destOverride : String
  yes : Bool
  force : Bool
deriving Repr, DecidableEq

def SyncOptions.init : SyncOptions :=
  { repoHint := "", worktreeNum := 0, destOverride := "", yes := false, force := false }

/-- Split a flag body at the first `=`, if any. -/
def splitFlagBody (body : String) : String × Option String :=
  match splitOnChar '=' body with
  | [] => (body, none)
  | [n] => (n, none)
  | n :: rest => (n, some (String.intercalate "=" rest))

/-- Modelled from the spec (§6) and the Go standard `flag` package with
`ContinueOnError` (external to the repository): the five registered
flags in `-name value`, `-name=value`, `--name` forms; a boolean flag
takes no separate argument; parsing stops at the first non-flag
argument or at `--`; an undefined flag, a missing value, or a
non-numeric `--worktree` value is an error. -/
def parseFlags : List String → SyncOptions → Except String SyncOptions
  | [], opts => .ok opts
  | a :: rest, opts =>
    if a = "--" then .ok opts
    else if a = "-" || ¬ strStartsWith a "-" then .ok opts
    else
      let body := if strStartsWith a "--" then strDrop a 2 else strDrop a 1
      let (name, val?) := splitFlagBody body
      if name = "yes" then
        match val? with
        | none => parseFlags rest { opts with yes := true }
        | some v =>
          if v = "true" then parseFlags rest { opts with yes := true }
          else if v = "false" then parseFlags rest { opts with yes := false }
          else .error ("invalid boolean value " ++ v)
      else if name = "force" then
        match val? with
        | none => parseFlags rest { opts with force := true }
        | some v =>
          if v = "true" then parseFlags rest { opts with force := true }
          else if v = "false" then parseFlags rest { opts with force := false }
          else .error ("invalid boolean value " ++ v)
      else if name = "repo" then
        match val? with
        | some v => parseFlags rest { opts with repoHint := v }
        | none =>
          match rest with
          | v :: rest2 => parseFlags rest2 { opts with repoHint := v }
          | [] => .error "flag needs an argument: -repo"
      else if name = "dest" then
        match val? with
        | some v => parseFlags rest { opts with destOverride := v }
        | none =>
          match rest with
          | v :: rest2 => parseFlags rest2 { opts with destOverride := v }
          | [] => .error "flag needs an argument: -dest"
      else if name = "worktree" then
        match val? with
        | some v =>
          match strToInt? v with
          | some n => parseFlags rest { opts with worktreeNum := n }
          | none => .error ("invalid value " ++ v ++ " for flag -worktree")
        | none =>
          match rest with
          | v :: rest2 =>
            match strToInt? v with
            | some n => parseFlags rest2 { opts with worktreeNum := n }
            | none => .error ("invalid value " ++ v ++ " for flag -worktree")
          | [] => .error "flag needs an argument: -worktree"
      else .error ("flag provided but not defined: -" ++ name)

/-- `parseOptions` -/
def parseOptions (args : List String) : Except String SyncOptions :=
  parseFlags args SyncOptions.init

/-- The interactive retry loop of `pickWorktree`, consuming reply
lines until a valid 1-based index is entered.  The real program
re-prompts forever when input is exhausted; exhaustion of the modelled
reply list is represented as an error outcome. -/
def pickLoop (wts : List Worktree) : List String → List String × Except String Worktree
  | [] => ([], .error "no selection")
  | a :: rest =>
    match strToInt? (strTrim a) with
    | some n =>
      if 1 ≤ n && n ≤ (wts.length : Int) then
        match wts[(n - 1).toNat]? with
        | some wt => (rest, .ok wt)
        | none => (rest, .error "no selection")
      else pickLoop wts rest
    | none => pickLoop wts rest

/-- `pickWorktree` -/
def pickWorktree (wts : List Worktree) (destOverride : String)
    (worktreeNum : Int) (stdin : List String) :
    List String × Except String Worktree :=
  if destOverride ≠ "" then
    match wts.find? (fun wt => samePath wt.path destOverride) with
    | some wt => (stdin, .ok wt)
    | none =>
      (stdin, .error ("--dest did not match an active worktree path: " ++ destOverride))
  else if worktreeNum ≠ 0 then
    if worktreeNum < 1 || worktreeNum > (wts.length : Int) then
      (stdin, .error "--worktree out of range")
    else
      match wts[(worktreeNum - 1).toNat]? with
      | some wt => (stdin, .ok wt)
      | none => (stdin, .error "--worktree out of range")
  else pickLoop wts stdin

/-- The program's external collaborators for one invocation: the git
subprocess results, the home directory, the config-file read, and the
two directory walks (repo-relative and store-relative visited regular
files, in walk order). -/
structure Env where
  gitRepoRoot : Except String String
  porcelain : Except String String
  home : Except String String
  configFile : ReadResult
  walkRepo : Except String (List String)
  walkStore : Except String (List String)

/-- `sync.Run`, threading the modelled filesystem and reply stream and
returning the final state together with the command's error outcome. -/
def runSync (env : Env) (st : ExecState) (args : List String) :
    ExecState × Except String Unit :=
  match parseOptions args with
  | .error _ => (st, .error "invalid arguments")
  | .ok opts =>
    match env.gitRepoRoot with
    | .error e => (st, .error e)
    | .ok repoRoot =>
      match env.porcelain with
      | .error e => (st, .error e)
      | .ok out =>
        match parseWorktreePorcelain out with
        | .error e => (st, .error e)
        | .ok wts =>
          match pickWorktree wts opts.destOverride opts.worktreeNum st.stdin with
          | (stdin1, .error e) => ({ st with stdin := stdin1 }, .error e)
          | (stdin1, .ok wt) =>
            let st := { st with stdin := stdin1 }
            if samePath repoRoot wt.path then
              (st, .error "selected worktree is the current repo root; nothing to sync")
            else
              match load repoRoot env.configFile with
              | .error e => (st, .error e)
              | .ok loaded =>
                match env.home with
                | .error e => (st, .error ("home dir: " ++ e))
                | .ok home =>
                  let storeRoot := storeRootPath home repoRoot wt
                  match env.walkRepo with
                  | .error e => (st, .error e)
                  | .ok walked =>
                    let plan := buildSyncPlan repoRoot wt.path storeRoot loaded.config walked
                    if plan.isEmpty then (st, .ok ())
                    else
                      let (go, st) :=
                        if opts.yes then (true, st)
                        else
                          let (ans, rest) := confirmAnswer st.stdin
                          (ans, { st with stdin := rest })
                      if go then ((syncExec st opts.force plan).1, .ok ())
                      else (st, .ok ())

/-- `sync.Push` -/
def runPush (env : Env) (st : ExecState) (args : List String) :
    ExecState × Except String Unit :=
  match parseOptions args with
  | .error _ => (st, .error "invalid arguments")
  | .ok opts =>
    match env.gitRepoRoot with
    | .error e => (st, .error e)
    | .ok repoRoot =>
      match env.porcelain with
      | .error e => (st, .error e)
      | .ok out =>
        match parseWorktreePorcelain out with
        | .error e => (st, .error e)
        | .ok wts =>
          match pickWorktree wts opts.destOverride opts.worktreeNum st.stdin with
          | (stdin1, .error e) => ({ st with stdin := stdin1 }, .error e)
          | (stdin1, .ok wt) =>
            let st := { st with stdin := stdin1 }
            match load repoRoot env.configFile with
            | .error e => (st, .error e)
            | .ok loaded =>
              match env.home with
              | .error e => (st, .error ("home dir: " ++ e))
              | .ok home =>
                let storeRoot := storeRootPath home repoRoot wt
                match st.fs.lookup storeRoot with
                | none =>
                  (st, .error ("store " ++ storeRoot ++ " does not exist; run \"wtm sync\" first"))
                | some _ =>
                  match env.walkStore with
                  | .error e => (st, .error e)
                  | .ok walked =>
                    let plan := buildPushPlan storeRoot repoRoot loaded.config walked
                    if plan.isEmpty then (st, .ok ())
                    else
                      let (go, st) :=
                        if opts.yes then (true, st)
                        else
                          let (ans, rest) := confirmAnswer st.stdin
                          (ans, { st with stdin := rest })
                      if go then ((pushExec st opts.force plan).1, .ok ())
                      else (st, .ok ())

/-- `main` (cmd/wtm/main.go): the resulting process exit code, with
`argv` the arguments after the program name. -/
def mainExitCode (env : Env) (st : ExecState) (argv : List String) : Nat :=
  match argv with
  | [] => 2
  | cmd :: rest =>
    if cmd = "sync" then
      match (runSync env st rest).2 with
      | .ok _ => 0
      | .error _ => 1
    else if cmd = "push" then
      match (runPush env st rest).2 with
      | .ok _ => 0
      | .error _ => 1
    else if cmd = "version" then 0
    else 2

/-! ## Concrete fixtures used by witnesses and counterexamples -/

/-- A repository with a single worktree record equal to the repo root
itself, with an existing store holding one cached file. -/
def envSingle : Env :=
  { gitRepoRoot := .ok "/repo"
  , porcelain := .ok "worktree /repo\nHEAD abc\n"
  , home := .ok "/h"
  , configFile := .notExist
  , walkRepo := .ok [".env"]
  , walkStore := .ok [".env"] }

def stSingle : ExecState :=
  { fs := ⟨[("/repo", .dir), ("/h/.wtm/configs/repo/repo", .dir),
            ("/h/.wtm/configs/repo/repo/.env", .file "SECRET")]⟩
  , stdin := [] }

/-! ### Theorems -/

theorem charListLt_iff_lex (as bs : List Char) :
    charListLt as bs = true ↔ List.Lex (· < ·) as bs := by
  induction as generalizing bs with
  | nil =>
    cases bs with
    | nil => simp [charListLt, List.Lex.not_nil_right]
    | cons b bs => simp [charListLt, List.Lex.nil]
  | cons a as ih =>
    cases bs with
    | nil => simp [charListLt, List.Lex.not_nil_right]
    | cons b bs =>
      simp only [charListLt]
      by_cases h1 : a < b
      · simp only [if_pos h1, true_iff]
        exact List.Lex.rel h1
      · by_cases h2 : b < a
        · rw [if_neg h1, if_pos h2]
          simp only [Bool.false_eq_true, false_iff]
          intro hlex
          cases hlex with
          | rel h => exact h1 h
          | cons h => exact absurd h2 (lt_irrefl a)
        · have hab : a = b := le_antisymm (le_of_not_lt h2) (le_of_not_lt h1)
          subst hab
          rw [if_neg h1, if_neg h2, ih]
          exact List.Lex.cons_iff.symm

theorem strLt_iff (a b : String) : strLt a b = true ↔ a < b := by
  rw [strLt, charListLt_iff_lex, String.lt_iff_toList_lt]
  exact Iff.rfl

theorem insertPlanItem_perm (x : PlanItem) (l : List PlanItem) :
    (insertPlanItem x l).Perm (x :: l) := by
  induction l with
  | nil => simp [insertPlanItem]
  | cons y ys ih =>
    simp only [insertPlanItem]
    split
    · exact List.Perm.refl _
    · exact (ih.cons y).trans (List.Perm.swap x y ys)

theorem insertPlanItem_sorted (x : PlanItem) (l : List PlanItem)
    (h : l.Pairwise (fun a b => a.rel ≤ b.rel)) :
    (insertPlanItem x l).Pairwise (fun a b => a.rel ≤ b.rel) := by
  induction l with
  | nil => simp [insertPlanItem]
  | cons y ys ih =>
    rcases List.pairwise_cons.mp h with ⟨hy, hys⟩
    simp only [insertPlanItem]
    split
    · rename_i hlt
      have hlt := (strLt_iff x.rel y.rel).mp hlt
      refine List.pairwise_cons.mpr ⟨?_, h⟩
      intro b hb
      rcases List.mem_cons.mp hb with hb | hb
      · exact hb ▸ le_of_lt hlt
      · exact (le_of_lt hlt).trans (hy b hb)
    · rename_i hnlt
      have hnlt := le_of_not_lt (fun hc => hnlt ((strLt_iff x.rel y.rel).mpr hc))
      refine List.pairwise_cons.mpr ⟨?_, ih hys⟩
      intro b hb
      rcases List.mem_cons.mp ((insertPlanItem_perm x ys).mem_iff.mp hb) with hb | hb
      · exact hb ▸ hnlt
      · exact hy b hb

theorem sortPlanAux_perm (items acc : List PlanItem) :
    (items.foldl (fun a x => insertPlanItem x a) acc).Perm (items ++ acc) := by
  induction items generalizing acc with
  | nil => simp
  | cons x xs ih =>
    simp only [List.foldl_cons, List.cons_append]
    exact ((ih (insertPlanItem x acc)).trans
      ((insertPlanItem_perm x acc).append_left xs)).trans List.perm_middle

theorem sortPlanAux_sorted (items : List PlanItem) (acc : List PlanItem)
    (h : acc.Pairwise (fun a b => a.rel ≤ b.rel)) :
    (items.foldl (fun a x => insertPlanItem x a) acc).Pairwise (fun a b => a.rel ≤ b.rel) := by
  induction items generalizing acc with
  | nil => simpa using h
  | cons x xs ih => exact ih _ (insertPlanItem_sorted x acc h)

theorem mem_sortPlan (a : PlanItem) (l : List PlanItem) : a ∈ sortPlan l ↔ a ∈ l := by
  have h := (sortPlanAux_perm l []).mem_iff (a := a)
  simpa [sortPlan] using h

/-- C6: `sortPlan` returns a permutation of its input that is sorted in
ascending lexicographic order of relative path, for every input list;
hence the plan returned by planning is the sorted permutation of the
matched items. -/
theorem c6_sortPlan_sorted_perm (items : List PlanItem) :
    (sortPlan items).Perm items ∧
      (sortPlan items).Pairwise (fun a b => a.rel ≤ b.rel) := by
  constructor
  · simpa using sortPlanAux_perm items []
  · exact sortPlanAux_sorted items [] (by simp)

theorem planEntry_some_iff (r w s : String) (inc exc : List String) (relOS : String)
    (it : PlanItem) :
    planEntry r w s inc exc relOS = some it ↔
      (matchesAny inc relOS = true ∧ matchesAny exc relOS = false ∧
        samePath (joinPath [r, relOS]) (joinPath [w, relOS]) = false ∧
        it = { rel := relOS, repoAbs := joinPath [r, relOS], storeAbs := joinPath [s, relOS],
               worktreeAbs := joinPath [w, relOS] }) := by
  by_cases h1 : matchesAny inc relOS = true
  · by_cases h2 : matchesAny exc relOS = true
    · simp [planEntry, h1, h2]
    · by_cases h3 : samePath (joinPath [r, relOS]) (joinPath [w, relOS]) = true
      · simp [planEntry, h1, h2, h3]
      · simp only [planEntry, h1, Bool.not_true, Bool.false_or,
          Bool.eq_false_iff.mpr h2, if_false, Bool.eq_false_iff.mpr h3, eq_comm]
        simp [Bool.eq_false_iff.mpr h2, Bool.eq_false_iff.mpr h3, h1]
  · simp [planEntry, Bool.eq_false_iff.mpr h1, h1]

/-- C1: a walked regular file (whose destination differs from its
source path, as is guaranteed in a sync where the repo root is never the
destination) lands in the sync plan exactly when its slash-relative path
matches an include pattern and no exclude pattern; a pattern whose match
reports an error never contributes a match and never aborts the walk;
under the default config, `apps/api/.env` is planned and
`apps/api/.env.example` is not. -/
theorem c1_sync_plan_membership :
    (∀ (cfg : Config) (repoRoot worktreeRoot storeRoot : String) (walked : List String)
        (rel : String),
      rel ∈ walked →
      samePath (joinPath [cleanPath repoRoot, rel]) (joinPath [cleanPath worktreeRoot, rel]) =
        false →
      ((∃ it ∈ buildSyncPlan repoRoot worktreeRoot storeRoot cfg walked, it.rel = rel) ↔
        (matchesAny (normalizePatterns cfg.«include») rel = true ∧
          matchesAny (normalizePatterns cfg.exclude) rel = false))) ∧
    (∀ (ps1 ps2 : List String) (p rel : String),
      dsMatch p rel = .error () →
      matchesAny (ps1 ++ p :: ps2) rel = matchesAny (ps1 ++ ps2) rel) ∧
    (buildSyncPlan "/repo" "/wt" "/store" Config.Default
        ["apps/api/.env", "apps/api/.env.example"]).map PlanItem.rel = ["apps/api/.env"] := by
  refine ⟨?_, ?_, by decide⟩
  · intro cfg repoRoot worktreeRoot storeRoot walked rel hmem hne
    constructor
    · rintro ⟨it, hit, hrel⟩
      simp only [buildSyncPlan, mem_sortPlan] at hit
      rcases List.mem_filterMap.mp hit with ⟨r, _, hpe⟩
      rcases (planEntry_some_iff _ _ _ _ _ _ _).mp hpe with ⟨hi, he, _, hit_eq⟩
      have hr : r = rel := by rw [hit_eq] at hrel; exact hrel
      exact ⟨hr ▸ hi, hr ▸ he⟩
    · rintro ⟨hi, he⟩
      refine ⟨{ rel := rel, repoAbs := joinPath [cleanPath repoRoot, rel],
                storeAbs := joinPath [cleanPath storeRoot, rel],
                worktreeAbs := joinPath [cleanPath worktreeRoot, rel] }, ?_, rfl⟩
      simp only [buildSyncPlan, mem_sortPlan]
      exact List.mem_filterMap.mpr
        ⟨rel, hmem, (planEntry_some_iff _ _ _ _ _ _ _).mpr ⟨hi, he, hne, rfl⟩⟩
  · intro ps1 ps2 p rel h
    simp [matchesAny, h]

/-- Witness for C1 at concrete inputs. -/
theorem c1_sync_plan_membership_witness :
    ((∃ it ∈ buildSyncPlan "/repo" "/wt" "/store" Config.Default ["apps/api/.env"],
        it.rel = "apps/api/.env") ↔
      (matchesAny (normalizePatterns Config.Default.«include») "apps/api/.env" = true ∧
        matchesAny (normalizePatterns Config.Default.exclude) "apps/api/.env" = false)) ∧
    matchesAny ([] ++ "[" :: ["x"]) "x" = matchesAny ([] ++ ["x"]) "x" :=
  ⟨c1_sync_plan_membership.1 Config.Default "/repo" "/wt" "/store" ["apps/api/.env"]
      "apps/api/.env" (by decide) (by decide),
    c1_sync_plan_membership.2.1 [] ["x"] "[" "x" rfl⟩

theorem foldl_porcelainStep_eq (ls : List String) (st : List Worktree × Option Worktree) :
    ls.foldl porcelainStep st =
      ((ls.map strTrim).filter (fun l => l ≠ "")).foldl porcelainCore st := by
  induction ls generalizing st with
  | nil => rfl
  | cons l ls ih =>
    simp only [List.foldl_cons, List.map_cons, List.filter_cons]
    by_cases h : strTrim l = ""
    · simp [porcelainStep, h, ih]
    · simp [porcelainStep, h, ih]

theorem porcelainCore_wt (out : List Worktree) (cur : Option Worktree) (l : String)
    (hl : strStartsWith l "worktree " = true) :
    porcelainCore (out, cur) l =
      (out ++ (match cur with | some w => [w] | none => []),
       some { path := strTrim (strDrop l 9), branch := "", head := "" }) := by
  simp [porcelainCore, hl]

theorem porcelainCore_none (out : List Worktree) (l : String)
    (hl : strStartsWith l "worktree " = false) :
    porcelainCore (out, none) l = (out, none) := by
  cases hbr : strStartsWith l "branch " <;> cases hhd : strStartsWith l "HEAD " <;>
    simp [porcelainCore, hl, hbr, hhd]

theorem porcelainCore_info (out : List Worktree) (w : Worktree) (l : String)
    (hl : strStartsWith l "worktree " = false) :
    porcelainCore (out, some w) l = (out, some (applyInfoLine w l)) := by
  cases hbr : strStartsWith l "branch " <;> cases hhd : strStartsWith l "HEAD " <;>
    simp [porcelainCore, applyInfoLine, hl, hbr, hhd]

theorem foldl_porcelainCore_blocks (lines : List String) (out : List Worktree)
    (cur : Option Worktree) :
    porcelainOut (lines.foldl porcelainCore (out, cur)) =
      out ++ (match cur with
        | none => (specBlocks lines).map specRecord
        | some w =>
          (lines.takeWhile (fun x => !isWorktreeLine x)).foldl applyInfoLine w ::
            (specBlocks (lines.dropWhile (fun x => !isWorktreeLine x))).map specRecord) := by
  induction lines generalizing out cur with
  | nil =>
    cases cur with
    | none => simp [porcelainOut, specBlocks]
    | some w => simp [porcelainOut, specBlocks]
  | cons l ls ih =>
    by_cases hl : isWorktreeLine l
    · have hl' : strStartsWith l "worktree " = true := hl
      cases cur with
      | none =>
        rw [List.foldl_cons, porcelainCore_wt out none l hl', ih]
        simp [specBlocks, hl, specRecord]
      | some w =>
        rw [List.foldl_cons, porcelainCore_wt out (some w) l hl', ih]
        simp [specBlocks, hl, specRecord, List.takeWhile_cons, List.dropWhile_cons]
    · have hl' : strStartsWith l "worktree " = false := by
        simpa [isWorktreeLine] using hl
      cases cur with
      | none =>
        rw [List.foldl_cons, porcelainCore_none out l hl', ih]
        simp [specBlocks, hl]
      | some w =>
        rw [List.foldl_cons, porcelainCore_info out w l hl', ih]
        simp [hl, List.takeWhile_cons, List.dropWhile_cons]

theorem specBlocks_length (ls : List String) :
    (specBlocks ls).length = ls.countP isWorktreeLine := by
  induction ls using specBlocks.induct with
  | case1 => simp [specBlocks]
  | case2 l ls hl ih =>
    rw [specBlocks]
    simp only [if_pos hl, List.length_cons, ih]
    have hsplit := List.takeWhile_append_dropWhile
      (p := fun x => !isWorktreeLine x) (l := ls)
    conv_rhs => rw [List.countP_cons, ← hsplit]
    rw [List.countP_append]
    have hz : (ls.takeWhile (fun x => !isWorktreeLine x)).countP isWorktreeLine = 0 := by
      rw [List.countP_eq_zero]
      intro a ha
      have := List.mem_takeWhile_imp ha
      simpa using this
    simp [hl, hz]
  | case3 l ls hl ih =>
    rw [specBlocks]
    simp only [if_neg hl, ih, List.countP_cons]
    simp [hl]

/-- C2: for every porcelain input, the parser yields exactly one record
per `worktree` line, in input order, with each `branch`/`HEAD` line
attached to the record of the nearest preceding `worktree` line and all
other lines ignored (stated as equality with the block-structured
reformulation `parseWorktreesSpec`, whose block count is the number of
`worktree` lines); an input with zero `worktree` lines yields an
error. -/
theorem c2_porcelain_parse (s : String) :
    parseWorktreePorcelain s = parseWorktreesSpec s ∧
      (specBlocks (porcelainLines s)).length = (porcelainLines s).countP isWorktreeLine ∧
      (parseWorktreePorcelain s = .error "no worktrees found" ↔
        (porcelainLines s).countP isWorktreeLine = 0) := by
  have heq : parseWorktreePorcelain s = parseWorktreesSpec s := by
    unfold parseWorktreePorcelain parseWorktreesSpec
    rw [foldl_porcelainStep_eq]
    rw [show ((splitOnChar '\n' s).map strTrim).filter (fun l => l ≠ "") =
      porcelainLines s from rfl]
    rw [foldl_porcelainCore_blocks (porcelainLines s) [] none]
    simp only [List.nil_append]
    by_cases hb : specBlocks (porcelainLines s) = []
    · simp [hb]
    · simp [hb, List.isEmpty_iff]
  refine ⟨heq, specBlocks_length _, ?_⟩
  rw [heq, ← specBlocks_length, List.length_eq_zero]
  unfold parseWorktreesSpec
  by_cases hb : specBlocks (porcelainLines s) = []
  · simp [hb]
  · simp [hb, List.isEmpty_iff]

/-- C5: with the fixed-name config file absent, loading returns exactly
the built-in defaults tagged `"defaults"`; with a successfully parsed
file, each of the include and exclude lists falls back to its default
exactly when it is empty, independently of the other. -/
theorem c5_config_load :
    (∀ root : String,
      load root .notExist = .ok { config := Config.Default, source := "defaults" }) ∧
    (∀ (root : String) (c : Config),
      load root (.content (.ok c)) = .ok
        { config :=
            { «include» :=
                if c.«include».isEmpty then Config.Default.«include» else c.«include»
            , exclude := if c.exclude.isEmpty then Config.Default.exclude else c.exclude }
        , source := joinPath [root, ".worktree-manager.yml"] }) := by
  refine ⟨fun root => rfl, fun root c => ?_⟩
  cases c with
  | mk inc exc =>
    simp only [load]
    by_cases h1 : inc.isEmpty <;> by_cases h2 : exc.isEmpty <;> simp [h1, h2]

/-- C3: the spec's cache-root formula fails on the code for a sibling
worktree.  With home `/h`, repository root `/a/b` and worktree `/a/c`,
`filepath.Rel` yields `../c`, the `..` survives sanitization as a whole
segment, and the final join collapses it, so the derived cache root
escapes the repository's directory: the code produces
`/h/.wtm/configs/c` where the spec formula requires
`/h/.wtm/configs/b/a/c`.  For a worktree that is a sub-path of the root
the two agree. -/
theorem c3_store_path_divergence :
    storeRootPath "/h" "/a/b" { path := "/a/c", branch := "", head := "" } =
      "/h/.wtm/configs/c" ∧
    storeRootPathSpec "/h" "/a/b" { path := "/a/c", branch := "", head := "" } =
      "/h/.wtm/configs/b/a/c" ∧
    storeRootPath "/h" "/a/b" { path := "/a/c", branch := "", head := "" } ≠
      storeRootPathSpec "/h" "/a/b" { path := "/a/c", branch := "", head := "" } ∧
    storeRootPath "/h" "/a/b" { path := "/a/b/wt", branch := "", head := "" } =
      storeRootPathSpec "/h" "/a/b" { path := "/a/b/wt", branch := "", head := "" } := by
  refine ⟨by decide, by decide, by decide, by decide⟩

theorem ensureWorktreeLink_noop (st : ExecState) (target link : String) (force : Bool)
    (h1 : st.fs.lookup link = some (.symlink target))
    (h2 : st.fs.lookup (dirPath link) = some .dir) :
    ensureWorktreeLink st target link force = (st, .ok) := by
  simp only [ensureWorktreeLink, FS.mkdirAll, h2, h1, if_pos]

/-- C7: a plan item whose destination is already a symlink pointing at
exactly the item's cache path is a no-op for the executor: no removal,
no new symlink, no prompt (the state is returned unchanged), and the
`Run` loop counts the item as linked, not skipped. -/
theorem c7_unchanged_symlink_noop :
    (∀ (st : ExecState) (target link : String) (force : Bool),
      st.fs.lookup link = some (.symlink target) →
      st.fs.lookup (dirPath link) = some .dir →
      ensureWorktreeLink st target link force = (st, .ok)) ∧
    (∀ (st st1 : ExecState) (t : SyncTally) (it : PlanItem) (force : Bool),
      copyRepoToStore st it.repoAbs it.storeAbs = (st1, .ok ()) →
      st1.fs.lookup it.worktreeAbs = some (.symlink it.storeAbs) →
      st1.fs.lookup (dirPath it.worktreeAbs) = some .dir →
      syncStep force (st, t) it =
        (st1, { t with copied := t.copied + 1, linked := t.linked + 1 })) := by
  refine ⟨fun st target link force h1 h2 => ensureWorktreeLink_noop st target link force h1 h2,
    ?_⟩
  intro st st1 t it force hcopy hlink hdir
  simp only [syncStep, hcopy,
    ensureWorktreeLink_noop st1 it.storeAbs it.worktreeAbs force hlink hdir]

/-- Witness for C7 at a concrete state. -/
theorem c7_unchanged_symlink_noop_witness :
    ensureWorktreeLink
      { fs := ⟨[("/wt", .dir), ("/wt/.env", .symlink "/store/.env")]⟩, stdin := ["n"] }
      "/store/.env" "/wt/.env" false =
      ({ fs := ⟨[("/wt", .dir), ("/wt/.env", .symlink "/store/.env")]⟩, stdin := ["n"] },
        .ok) :=
  c7_unchanged_symlink_noop.1
    { fs := ⟨[("/wt", .dir), ("/wt/.env", .symlink "/store/.env")]⟩, stdin := ["n"] }
    "/store/.env" "/wt/.env" false (by decide) (by decide)

theorem syncTally_add_zero (t : SyncTally) : t.add ⟨0, 0, 0⟩ = t := by
  cases t
  simp [SyncTally.add]

theorem syncTally_add_assoc (a b c : SyncTally) : (a.add b).add c = a.add (b.add c) := by
  cases a; cases b; cases c
  simp [SyncTally.add, Nat.add_assoc]

theorem syncStep_shift (force : Bool) (st : ExecState) (t : SyncTally) (it : PlanItem) :
    syncStep force (st, t) it =
      ((syncStep force (st, ⟨0, 0, 0⟩) it).1,
        t.add (syncStep force (st, ⟨0, 0, 0⟩) it).2) := by
  simp only [syncStep]
  rcases hc : copyRepoToStore st it.repoAbs it.storeAbs with ⟨st1, r⟩
  cases r with
  | error e => simp [hc, SyncTally.add]
  | ok u =>
    rcases he : ensureWorktreeLink st1 it.storeAbs it.worktreeAbs force with ⟨st2, r2⟩
    cases r2 <;> simp [hc, he, SyncTally.add]

theorem syncExec_shift (force : Bool) (plan : List PlanItem) (st : ExecState)
    (t : SyncTally) :
    plan.foldl (syncStep force) (st, t) =
      ((plan.foldl (syncStep force) (st, ⟨0, 0, 0⟩)).1,
        t.add (plan.foldl (syncStep force) (st, ⟨0, 0, 0⟩)).2) := by
  induction plan generalizing st t with
  | nil => simp [syncTally_add_zero]
  | cons it its ih =>
    rw [List.foldl_cons, List.foldl_cons, syncStep_shift force st t it]
    rcases hs : syncStep force (st, ⟨0, 0, 0⟩) it with ⟨s1, d⟩
    rw [ih s1 (t.add d), ih s1 d, syncTally_add_assoc]

theorem syncStep_delta (force : Bool) (st : ExecState) (it : PlanItem) :
    (syncStep force (st, ⟨0, 0, 0⟩) it).2.linked +
        (syncStep force (st, ⟨0, 0, 0⟩) it).2.skippedCount = 1 ∧
      (syncStep force (st, ⟨0, 0, 0⟩) it).2.copied ≤ 1 ∧
      (syncStep force (st, ⟨0, 0, 0⟩) it).2.linked ≤
        (syncStep force (st, ⟨0, 0, 0⟩) it).2.copied := by
  simp only [syncStep]
  rcases hc : copyRepoToStore st it.repoAbs it.storeAbs with ⟨st1, r⟩
  cases r with
  | error e => simp [hc]
  | ok u =>
    rcases he : ensureWorktreeLink st1 it.storeAbs it.worktreeAbs force with ⟨st2, r2⟩
    cases r2 <;> simp [hc, he]

theorem syncExec_counts (st : ExecState) (force : Bool) (plan : List PlanItem) :
    (syncExec st force plan).2.linked + (syncExec st force plan).2.skippedCount =
        plan.length ∧
      (syncExec st force plan).2.linked ≤ (syncExec st force plan).2.copied ∧
      (syncExec st force plan).2.copied ≤ plan.length := by
  induction plan generalizing st with
  | nil => simp [syncExec]
  | cons it its ih =>
    have hd := syncStep_delta force st it
    simp only [syncExec, List.foldl_cons] at ih ⊢
    rcases hs : syncStep force (st, ⟨0, 0, 0⟩) it with ⟨s1, d⟩
    rw [hs] at hd
    rw [syncExec_shift force its s1 d]
    have hih := ih s1
    rcases hr : its.foldl (syncStep force) (s1, ⟨0, 0, 0⟩) with ⟨F, D⟩
    rw [hr] at hih
    simp only [SyncTally.add, List.length_cons] at *
    omega

theorem pushStep_shift (force : Bool) (st : ExecState) (t : PushTally) (it : PlanItem) :
    pushStep force (st, t) it =
      ((pushStep force (st, ⟨0, 0⟩) it).1,
        t.add (pushStep force (st, ⟨0, 0⟩) it).2) := by
  simp only [pushStep]
  rcases hc : copyStoreToRepo st it.storeAbs it.repoAbs force with ⟨st1, r⟩
  cases r <;> simp [hc, PushTally.add]

theorem pushTally_add_zero (t : PushTally) : t.add ⟨0, 0⟩ = t := by
  cases t
  simp [PushTally.add]

theorem pushTally_add_assoc (a b c : PushTally) : (a.add b).add c = a.add (b.add c) := by
  cases a; cases b; cases c
  simp [PushTally.add, Nat.add_assoc]

theorem pushExec_shift (force : Bool) (plan : List PlanItem) (st : ExecState)
    (t : PushTally) :
    plan.foldl (pushStep force) (st, t) =
      ((plan.foldl (pushStep force) (st, ⟨0, 0⟩)).1,
        t.add (plan.foldl (pushStep force) (st, ⟨0, 0⟩)).2) := by
  induction plan generalizing st t with
  | nil => simp [pushTally_add_zero]
  | cons it its ih =>
    rw [List.foldl_cons, List.foldl_cons, pushStep_shift force st t it]
    rcases hs : pushStep force (st, ⟨0, 0⟩) it with ⟨s1, d⟩
    rw [ih s1 (t.add d), ih s1 d, pushTally_add_assoc]

theorem pushStep_delta (force : Bool) (st : ExecState) (it : PlanItem) :
    (pushStep force (st, ⟨0, 0⟩) it).2.pushed +
      (pushStep force (st, ⟨0, 0⟩) it).2.skippedCount = 1 := by
  simp only [pushStep]
  rcases hc : copyStoreToRepo st it.storeAbs it.repoAbs force with ⟨st1, r⟩
  cases r <;> simp [hc]

theorem pushExec_counts (st : ExecState) (force : Bool) (plan : List PlanItem) :
    (pushExec st force plan).2.pushed + (pushExec st force plan).2.skippedCount =
      plan.length := by
  induction plan generalizing st with
  | nil => simp [pushExec]
  | cons it its ih =>
    have hd := pushStep_delta force st it
    simp only [pushExec, List.foldl_cons] at ih ⊢
    rcases hs : pushStep force (st, ⟨0, 0⟩) it with ⟨s1, d⟩
    rw [hs] at hd
    rw [pushExec_shift force its s1 d]
    have hih := ih s1
    rcases hr : its.foldl (pushStep force) (s1, ⟨0, 0⟩) with ⟨F, D⟩
    rw [hr] at hih
    simp only [PushTally.add, List.length_cons] at *
    omega

/-- C9: both executor loops process each plan item exactly once, in
list order: executing `p1 ++ p2` equals executing `p1` and continuing
with `p2` from the resulting state whatever the per-item outcomes were
(no failure aborts the remainder), and the outcome tally accounts for
exactly one outcome per item. -/
theorem c9_no_abort_in_order :
    (∀ (st : ExecState) (force : Bool) (p1 p2 : List PlanItem),
      syncExec st force (p1 ++ p2) =
        ((syncExec (syncExec st force p1).1 force p2).1,
          (syncExec st force p1).2.add (syncExec (syncExec st force p1).1 force p2).2)) ∧
    (∀ (st : ExecState) (force : Bool) (plan : List PlanItem),
      (syncExec st force plan).2.linked + (syncExec st force plan).2.skippedCount =
        plan.length) ∧
    (∀ (st : ExecState) (force : Bool) (p1 p2 : List PlanItem),
      pushExec st force (p1 ++ p2) =
        ((pushExec (pushExec st force p1).1 force p2).1,
          (pushExec st force p1).2.add (pushExec (pushExec st force p1).1 force p2).2)) ∧
    (∀ (st : ExecState) (force : Bool) (plan : List PlanItem),
      (pushExec st force plan).2.pushed + (pushExec st force plan).2.skippedCount =
        plan.length) := by
  refine ⟨?_, fun st force plan => (syncExec_counts st force plan).1, ?_,
    fun st force plan => pushExec_counts st force plan⟩
  · intro st force p1 p2
    simp only [syncExec, List.foldl_append]
    rcases h1 : p1.foldl (syncStep force) (st, ⟨0, 0, 0⟩) with ⟨s1, t1⟩
    rw [syncExec_shift force p2 s1 t1]
  · intro st force p1 p2
    simp only [pushExec, List.foldl_append]
    rcases h1 : p1.foldl (pushStep force) (st, ⟨0, 0⟩) with ⟨s1, t1⟩
    rw [pushExec_shift force p2 s1 t1]

/-- C10: at the end of every executed sync plan, linked plus skipped
equals the number of plan items while copied only bounds linked from
above (`linked ≤ copied ≤ items`); an item whose copy succeeds but whose
link step does not end in success is counted in both copied and
skipped. -/
theorem c10_sync_tally_invariant :
    (∀ (st : ExecState) (force : Bool) (plan : List PlanItem),
      (syncExec st force plan).2.linked + (syncExec st force plan).2.skippedCount =
          plan.length ∧
        (syncExec st force plan).2.linked ≤ (syncExec st force plan).2.copied ∧
        (syncExec st force plan).2.copied ≤ plan.length) ∧
    (∀ (st st1 : ExecState) (t : SyncTally) (it : PlanItem) (force : Bool),
      copyRepoToStore st it.repoAbs it.storeAbs = (st1, .ok ()) →
      (ensureWorktreeLink st1 it.storeAbs it.worktreeAbs force).2 ≠ .ok →
      (syncStep force (st, t) it).2 =
        { t with copied := t.copied + 1, skippedCount := t.skippedCount + 1 }) := by
  refine ⟨fun st force plan => syncExec_counts st force plan, ?_⟩
  intro st st1 t it force hcopy hlink
  simp only [syncStep, hcopy]
  rcases he : ensureWorktreeLink st1 it.storeAbs it.worktreeAbs force with ⟨st2, r2⟩
  rw [he] at hlink
  cases r2 with
  | ok => exact absurd rfl hlink
  | skipped d => rfl
  | failed m => rfl

/-- Witness for C10's double-counting clause: a copy that succeeds
followed by a user-declined overwrite increments both copied and
skipped. -/
theorem c10_sync_tally_invariant_witness :
    (syncStep false
      ({ fs := ⟨[("/repo", .dir), ("/repo/.env", .file "x"), ("/h", .dir),
                 ("/wt", .dir), ("/wt/.env", .file "old")]⟩, stdin := ["n"] },
        (⟨0, 0, 0⟩ : SyncTally))
      { rel := ".env", repoAbs := "/repo/.env", storeAbs := "/h/.env",
        worktreeAbs := "/wt/.env" }).2 =
      { copied := 0 + 1, linked := 0, skippedCount := 0 + 1 } :=
  c10_sync_tally_invariant.2
    { fs := ⟨[("/repo", .dir), ("/repo/.env", .file "x"), ("/h", .dir),
              ("/wt", .dir), ("/wt/.env", .file "old")]⟩, stdin := ["n"] }
    { fs := ⟨[("/h/.env", .file "x"), ("/repo", .dir), ("/repo/.env", .file "x"),
              ("/h", .dir), ("/wt", .dir), ("/wt/.env", .file "old")]⟩, stdin := ["n"] }
    ⟨0, 0, 0⟩
    { rel := ".env", repoAbs := "/repo/.env", storeAbs := "/h/.env",
      worktreeAbs := "/wt/.env" }
    false rfl (by decide)

/-- C8: selecting the repository root itself as the sync destination
fails with a selection error before any file operation (the returned
filesystem state is the input one, untouched), while push accepts the
repo-root worktree — the same single-worktree repository that sync
rejects is pushed to completion. -/
theorem c8_self_target_rejected_for_sync_only :
    (∀ (env : Env) (st : ExecState) (args : List String) (opts : SyncOptions)
        (repoRoot out : String) (wts : List Worktree) (stdin1 : List String)
        (wt : Worktree),
      parseOptions args = .ok opts →
      env.gitRepoRoot = .ok repoRoot →
      env.porcelain = .ok out →
      parseWorktreePorcelain out = .ok wts →
      pickWorktree wts opts.destOverride opts.worktreeNum st.stdin = (stdin1, .ok wt) →
      samePath repoRoot wt.path = true →
      runSync env st args =
        ({ st with stdin := stdin1 },
          .error "selected worktree is the current repo root; nothing to sync") ∧
        (runSync env st args).1.fs = st.fs) ∧
    ((runPush envSingle stSingle ["--worktree", "1", "--yes", "--force"]).2 = .ok () ∧
      envSingle.gitRepoRoot = .ok "/repo" ∧
      parseWorktreePorcelain "worktree /repo\nHEAD abc\n" =
        .ok [{ path := "/repo", branch := "", head := "abc" }] ∧
      samePath "/repo" "/repo" = true) := by
  constructor
  · intro env st args opts repoRoot out wts stdin1 wt hp hg hpc hw hpk hsp
    have h1 : runSync env st args =
        ({ st with stdin := stdin1 },
          .error "selected worktree is the current repo root; nothing to sync") := by
      simp [runSync, hp, hg, hpc, hw, hpk, hsp]
    exact ⟨h1, by rw [h1]⟩
  · exact ⟨rfl, rfl, rfl, rfl⟩

/-- Witness for C8's rejection branch at a concrete repository. -/
theorem c8_self_target_rejected_for_sync_only_witness :
    runSync envSingle stSingle ["--worktree", "1", "--yes", "--force"] =
      ({ stSingle with stdin := [] },
        .error "selected worktree is the current repo root; nothing to sync") :=
  (c8_self_target_rejected_for_sync_only.1 envSingle stSingle
    ["--worktree", "1", "--yes", "--force"]
    { repoHint := "", worktreeNum := 1, destOverride := "", yes := true, force := true }
    "/repo" "worktree /repo\nHEAD abc\n"
    [{ path := "/repo", branch := "", head := "abc" }] []
    { path := "/repo", branch := "", head := "abc" }
    rfl rfl rfl rfl rfl rfl).1

/-- C4 counterexample: an unparseable flag on the sync subcommand makes
the process exit with code 1, not the claimed 2 (the dispatcher cannot
distinguish a usage error from an operational one). -/
theorem c4_exit_code_counterexample :
    mainExitCode envSingle stSingle ["sync", "--bogus"] = 1 ∧
      mainExitCode envSingle stSingle ["sync", "--bogus"] ≠ 2 := by
  exact ⟨rfl, by decide⟩

/-- C4 (amended): exit 0 on success of sync or push (including when
nothing matched), exit 1 on any error returned by sync or push —
including invalid arguments, which print usage and exit 1 — and exit 2
only for a missing or unknown subcommand. -/
theorem c4_exit_codes_amended :
    (∀ (env : Env) (st : ExecState), mainExitCode env st [] = 2) ∧
    (∀ (env : Env) (st : ExecState) (cmd : String) (rest : List String),
      cmd ≠ "sync" → cmd ≠ "push" → cmd ≠ "version" →
      mainExitCode env st (cmd :: rest) = 2) ∧
    (∀ (env : Env) (st : ExecState) (rest : List String),
      (runSync env st rest).2 = .ok () → mainExitCode env st ("sync" :: rest) = 0) ∧
    (∀ (env : Env) (st : ExecState) (rest : List String) (e : String),
      (runSync env st rest).2 = .error e → mainExitCode env st ("sync" :: rest) = 1) ∧
    (∀ (env : Env) (st : ExecState) (rest : List String),
      (runPush env st rest).2 = .ok () → mainExitCode env st ("push" :: rest) = 0) ∧
    (∀ (env : Env) (st : ExecState) (rest : List String) (e : String),
      (runPush env st rest).2 = .error e → mainExitCode env st ("push" :: rest) = 1) ∧
    (∀ (env : Env) (st : ExecState) (rest : List String) (e : String),
      parseOptions rest = .error e →
      mainExitCode env st ("sync" :: rest) = 1 ∧
        mainExitCode env st ("push" :: rest) = 1) := by
  refine ⟨fun env st => rfl, ?_, ?_, ?_, ?_, ?_, ?_⟩
  · intro env st cmd rest h1 h2 h3
    simp [mainExitCode, h1, h2, h3]
  · intro env st rest h
    simp [mainExitCode, h]
  · intro env st rest e h
    simp [mainExitCode, h]
  · intro env st rest h
    simp [mainExitCode, h]
  · intro env st rest e h
    simp [mainExitCode, h]
  · intro env st rest e h
    constructor
    · simp [mainExitCode, runSync, h]
    · simp [mainExitCode, runPush, h]

/-- Witness for C4's amended statement: a successful push exits 0 and a
bad flag exits 1. -/
theorem c4_exit_codes_amended_witness :
    mainExitCode envSingle stSingle ["push", "--worktree", "1", "--yes", "--force"] = 0 ∧
      mainExitCode envSingle stSingle ["sync", "--oops"] = 1 :=
  ⟨c4_exit_codes_amended.2.2.2.2.1 envSingle stSingle
      ["--worktree", "1", "--yes", "--force"] rfl,
    (c4_exit_codes_amended.2.2.2.2.2.2 envSingle stSingle ["--oops"]
      "flag provided but not defined: -oops" rfl).1⟩

end Wtm
